import Mathlib

/-
Verification of the `breaker` package (a Go circuit breaker).

Shallow embedding notes:
* `uint64` counters are modelled as `Nat`.  The Go code only ever adds 1 to a
  counter, or subtracts a quantity that (by the summary invariant proved below)
  never exceeds the counter, so wrap-around at 2^64 is unreachable on the paths
  the claims are about and `Nat` arithmetic coincides with `uint64` arithmetic
  there.
* The rolling window (`[]Counts`, oldest first, the last element being the
  current frame) is a `List Counts`.
* Go `float64` arithmetic in `defaultCanTrip` is modelled with exact rationals
  (`ℚ`); the comparison `(float64(Fail)/float64(Total))*100 >= 60` is rendered
  as the same expression over `ℚ`.  The two agree on every input the claims
  touch (the `Total > 10` conjunct guards the division, and no claim sits on a
  floating-point rounding boundary of the 60% threshold).
* The mutex-protected shared state is modelled by a sequential small-step
  relation: each critical section of the source becomes one atomic step.
  The `go waitHalfOpen()` statements arm a one-shot recovery task; the model
  records the number of live tasks in the ghost field `pending` (the source
  mirrors it in the `onHalfOpenTimeout` atomic flag), and the task body that
  runs after `halfOpenTimeout` elapses is the separate step `waitHalfOpenFire`.
-/

namespace Breaker

/-- Breaker state, `State` in the source (`closed` / `half-open` / `open`). -/
inductive State where
  | Closed
  | HalfOpen
  | Open
deriving DecidableEq, Repr

/-- Outcome counters, `Counts` in the source (`Total`, `Fail`, `Success`, all `uint64`). -/
structure Counts where
  Total : Nat
  Fail : Nat
  Success : Nat
deriving DecidableEq, Repr

/-- The zero `Counts` value (`Counts{}` in Go). -/
def Counts.zero : Counts := ⟨0, 0, 0⟩

/-- Componentwise sum of two `Counts`. -/
def Counts.add (a b : Counts) : Counts :=
  ⟨a.Total + b.Total, a.Fail + b.Fail, a.Success + b.Success⟩

/-- Componentwise (truncated) difference of two `Counts`; matches the `uint64`
subtraction in `decrSummary` whenever no underflow occurs. -/
def Counts.sub (a b : Counts) : Counts :=
  ⟨a.Total - b.Total, a.Fail - b.Fail, a.Success - b.Success⟩

/-- The breaker state shared between callers and the timer tasks:
`state.s`, the `onHalfOpenTimeout` atomic flag, `rollingWindow.window`
and `summary.counts` of the source `CircuitBreaker` struct.  `pending` is a
ghost counter of currently live `waitHalfOpen` goroutines (not a source field);
it is incremented at each `go waitHalfOpen()` and decremented when the task's
body runs. -/
structure CircuitBreaker where
  s : State
  onHalfOpenTimeout : Bool
  window : List Counts
  summary : Counts
  pending : Nat
deriving DecidableEq, Repr

/-- Policy callbacks supplied at construction (`canTrip` and
`fromHalfOpenToState` fields of `CircuitBreaker`). -/
structure Policies where
  canTrip : Counts → Bool
  fromHalfOpenToState : Counts → State

/-- Apply `f` to the last element of a list (the current frame,
`window[len(window)-1]` in the source); the empty case never arises on
reachable states. -/
def modifyLast (f : Counts → Counts) : List Counts → List Counts
  | [] => []
  | [x] => [f x]
  | x :: y :: xs => x :: modifyLast f (y :: xs)

/-- Source `currentFrameCopy`: the last frame of the rolling window. -/
def currentFrameCopy (c : CircuitBreaker) : Counts :=
  c.window.getLastD Counts.zero

/-- Source `incrSuccess`: adds one success to the current frame and to the
summary, in one critical section. -/
def incrSuccess (c : CircuitBreaker) : CircuitBreaker :=
  { c with
    window := modifyLast
      (fun b => { b with Total := b.Total + 1, Success := b.Success + 1 }) c.window
    summary := { c.summary with
      Total := c.summary.Total + 1, Success := c.summary.Success + 1 } }

/-- Source `incrFail`: adds one failure to the current frame and to the
summary, in one critical section. -/
def incrFail (c : CircuitBreaker) : CircuitBreaker :=
  { c with
    window := modifyLast
      (fun b => { b with Total := b.Total + 1, Fail := b.Fail + 1 }) c.window
    summary := { c.summary with
      Total := c.summary.Total + 1, Fail := c.summary.Fail + 1 } }

/-- Source `decrSummary`: subtracts `decr` from the summary. -/
def decrSummary (decr : Counts) (c : CircuitBreaker) : CircuitBreaker :=
  { c with summary := c.summary.sub decr }

/-- Source `addFrame`: appends a fresh empty frame to the window. -/
def addFrame (c : CircuitBreaker) : CircuitBreaker :=
  { c with window := c.window ++ [Counts.zero] }

/-- Source `moveWindow`: `decrSummary(unshiftFrame())` (drop the oldest frame,
subtracting its counts from the summary) followed by `addFrame`. -/
def moveWindow (c : CircuitBreaker) : CircuitBreaker :=
  addFrame (decrSummary (c.window.headD Counts.zero) { c with window := c.window.tail })

/-- Source `popWindow`: `decrSummary(popFrame())` (drop the newest frame,
subtracting its counts from the summary). -/
def popWindow (c : CircuitBreaker) : CircuitBreaker :=
  decrSummary (c.window.getLastD Counts.zero) { c with window := c.window.dropLast }

/-- Source `aggregateHalfOpenFrame`: pops the half-open frame and adds its
`Total`, `Success` and `Fail` into the (new) last frame; summary unchanged. -/
def aggregateHalfOpenFrame (c : CircuitBreaker) : CircuitBreaker :=
  { c with window :=
      modifyLast (fun b => b.add (c.window.getLastD Counts.zero)) c.window.dropLast }

/-- Breaker-specific error returned by `canExecute` / `Execute`
(`ErrOpenCircuit` in the source; this version of the code declares no
half-open rejection error). -/
inductive BreakerError where
  | ErrOpenCircuit
deriving DecidableEq, Repr

/-- Source `canExecute`: rejects with `ErrOpenCircuit` exactly when the state
is `Open`; every other state (including `HalfOpen`) admits the caller. -/
def canExecute (c : CircuitBreaker) : Option BreakerError :=
  if c.s = State.Open then some BreakerError.ErrOpenCircuit else none

/-- Source `afterExecute` (run deferred at the end of every `Execute` call,
under the state lock):
* `Closed`: if `canTrip(summary)` then the state becomes `Open` and
  `go waitHalfOpen()` arms the recovery task;
* `HalfOpen`: dispatch on `fromHalfOpenToState(currentFrameCopy())` —
  `Open` re-arms the recovery task (unless `onHalfOpenTimeout` is set),
  re-enters `Open` and `popWindow`s the probe frame; `Closed` enters `Closed`
  and merges the probe frame via `aggregateHalfOpenFrame`; `HalfOpen` is a
  no-op;
* `Open`: no case in the source switch, so a no-op. -/
def afterExecute (p : Policies) (c : CircuitBreaker) : CircuitBreaker :=
  match c.s with
  | State.Closed =>
      if p.canTrip c.summary then
        { c with s := State.Open, onHalfOpenTimeout := true, pending := c.pending + 1 }
      else c
  | State.HalfOpen =>
      match p.fromHalfOpenToState (currentFrameCopy c) with
      | State.Open =>
          if c.onHalfOpenTimeout then c
          else
            popWindow { c with
              s := State.Open, onHalfOpenTimeout := true, pending := c.pending + 1 }
      | State.Closed => aggregateHalfOpenFrame { c with s := State.Closed }
      | State.HalfOpen => c
  | State.Open => c

/-- Body of the source `waitHalfOpen` task once `halfOpenTimeout` has elapsed:
set the state to `HalfOpen`, `addFrame` a fresh probe frame, and clear the
`onHalfOpenTimeout` flag (the task's deferred `Store(false)`). -/
def waitHalfOpenFire (c : CircuitBreaker) : CircuitBreaker :=
  { addFrame c with
    s := State.HalfOpen, onHalfOpenTimeout := false, pending := c.pending - 1 }

/-- Outcome of one invocation of the wrapped operation (`circuitCall`):
it can return `nil`, return an error value `e`, or panic with value `v`. -/
inductive Outcome (ε π : Type) where
  | ok
  | fail (e : ε)
  | panics (v : π)

/-- What a caller of `Execute` observes: a `nil` return, the breaker's own
open-circuit rejection, the operation's error returned unchanged, or the
operation's panic value re-raised unchanged. -/
inductive ExecResult (ε π : Type) where
  | success
  | openCircuit
  | opError (e : ε)
  | panicked (v : π)
deriving DecidableEq, Repr

/-- Source `Execute`: `defer afterExecute()`; reject if `canExecute` errors
(the deferred `afterExecute` still runs); otherwise run the operation under a
`recover` handler — a panic records a failure and is re-raised unchanged, an
error records a failure and is returned unchanged, a `nil` return records a
success.  The pair returned is (what the caller observes, the new breaker
state after the deferred `afterExecute`). -/
def Execute {ε π : Type} (p : Policies) (fn : Outcome ε π) (c : CircuitBreaker) :
    ExecResult ε π × CircuitBreaker :=
  match canExecute c with
  | some BreakerError.ErrOpenCircuit => (ExecResult.openCircuit, afterExecute p c)
  | none =>
      match fn with
      | Outcome.ok => (ExecResult.success, afterExecute p (incrSuccess c))
      | Outcome.fail e => (ExecResult.opError e, afterExecute p (incrFail c))
      | Outcome.panics v => (ExecResult.panicked v, afterExecute p (incrFail c))

/-- Source `defaultCanTrip` (defaults file): trips when `Total > 10` and the
failure ratio `(float64(Fail)/float64(Total))*100` is at least 60; the float
arithmetic is modelled exactly over `ℚ`. -/
def defaultCanTrip (summary : Counts) : Bool :=
  decide (10 < summary.Total) &&
    decide ((60 : ℚ) ≤ (summary.Fail : ℚ) / (summary.Total : ℚ) * 100)

/-- Source `defaultFromHalfOpenToState` (defaults file): any failure reopens;
`Total > 100` with integer ratio `Fail/Total*100 < 99` closes; otherwise the
breaker stays half-open. -/
def defaultFromHalfOpenToState (summary : Counts) : State :=
  if 0 < summary.Fail then State.Open
  else if 100 < summary.Total ∧ summary.Fail / summary.Total * 100 < 99 then State.Closed
  else State.HalfOpen

/-- The default policy pair installed by `New` when no options override them. -/
def defaultPolicies : Policies :=
  ⟨defaultCanTrip, defaultFromHalfOpenToState⟩

/-- The freshly constructed shared state: `Closed`, flag clear, a window of
`frames` empty buckets (`make([]Counts, frames, frames+2)` in the source),
zero summary, no recovery task armed. -/
def initCB (frames : Nat) : CircuitBreaker :=
  { s := State.Closed, onHalfOpenTimeout := false,
    window := List.replicate frames Counts.zero,
    summary := Counts.zero, pending := 0 }

/-- Source `New`, restricted to its numeric configuration: the three option
setters reject non-positive seconds, `New` itself rejects
`windowFrame > windowRoll`, and otherwise builds the shared state with
`frames = windowRoll / windowFrame` (integer division) buckets. -/
def New (windowFrame windowRoll halfOpenThreshold : Int) : Option CircuitBreaker :=
  if windowFrame ≤ 0 ∨ windowRoll ≤ 0 ∨ halfOpenThreshold ≤ 0 then none
  else if windowRoll < windowFrame then none
  else some (initCB (windowRoll / windowFrame).toNat)

/-- Run a list of `Execute` calls in order, keeping the final breaker state. -/
def runList (p : Policies) (os : List (Outcome Unit Unit)) (c : CircuitBreaker) :
    CircuitBreaker :=
  os.foldl (fun c o => (Execute p o c).2) c

/-- One atomic step of the system: an `Execute` call completing, the
`renewFrame` timer tick rotating the window (the source task only acts while
`Closed`), or a live `waitHalfOpen` recovery task firing. -/
inductive Step (p : Policies) : CircuitBreaker → CircuitBreaker → Prop where
  | exec (fn : Outcome Unit Unit) (c : CircuitBreaker) :
      Step p c (Execute p fn c).2
  | frameTick (c : CircuitBreaker) (h : c.s = State.Closed) :
      Step p c (moveWindow c)
  | halfOpenFire (c : CircuitBreaker) (h : 0 < c.pending) :
      Step p c (waitHalfOpenFire c)

/-- States reachable from a constructed breaker (any configuration yields
`frames ≥ 1` buckets) by the steps above. -/
inductive Reachable (p : Policies) : CircuitBreaker → Prop where
  | init (frames : Nat) (h : 1 ≤ frames) : Reachable p (initCB frames)
  | step {c c' : CircuitBreaker} : Reachable p c → Step p c c' → Reachable p c'

/-- Componentwise sum of all buckets of a window. -/
def sumWindow (w : List Counts) : Counts :=
  w.foldr Counts.add Counts.zero

theorem Counts.add_zero (a : Counts) : a.add Counts.zero = a := by
  cases a; simp [Counts.add, Counts.zero]

theorem Counts.zero_add (a : Counts) : Counts.zero.add a = a := by
  cases a; simp [Counts.add, Counts.zero]

theorem Counts.add_assoc (a b c : Counts) : (a.add b).add c = a.add (b.add c) := by
  cases a; cases b; cases c; simp [Counts.add]; omega

theorem Counts.add_sub_cancel (a b : Counts) : (a.add b).sub b = a := by
  cases a; cases b; simp [Counts.add, Counts.sub]

theorem Counts.add_sub_cancel_left (a b : Counts) : (a.add b).sub a = b := by
  cases a; cases b; simp [Counts.add, Counts.sub]

theorem sumWindow_nil : sumWindow [] = Counts.zero := rfl

theorem sumWindow_cons (a : Counts) (w : List Counts) :
    sumWindow (a :: w) = a.add (sumWindow w) := rfl

theorem sumWindow_append (w₁ w₂ : List Counts) :
    sumWindow (w₁ ++ w₂) = (sumWindow w₁).add (sumWindow w₂) := by
  induction w₁ with
  | nil => simp [sumWindow_nil, Counts.zero_add]
  | cons a w ih => simp [sumWindow_cons, ih, Counts.add_assoc]

theorem sumWindow_replicate_zero (n : Nat) :
    sumWindow (List.replicate n Counts.zero) = Counts.zero := by
  induction n with
  | zero => rfl
  | succ n ih => simp [List.replicate_succ, sumWindow_cons, ih, Counts.zero_add]

theorem modifyLast_length (f : Counts → Counts) (w : List Counts) :
    (modifyLast f w).length = w.length := by
  induction w with
  | nil => rfl
  | cons a w ih =>
      cases w with
      | nil => rfl
      | cons b w' => simpa [modifyLast] using ih

theorem modifyLast_eq (f : Counts → Counts) (w : List Counts) (hw : w ≠ []) :
    modifyLast f w = w.dropLast ++ [f (w.getLastD Counts.zero)] := by
  induction w with
  | nil => exact absurd rfl hw
  | cons a w ih =>
      cases w with
      | nil => rfl
      | cons b w' => simpa [modifyLast] using ih (by simp)

theorem getLastD_mem (w : List Counts) (hw : w ≠ []) :
    w.getLastD Counts.zero ∈ w := by
  induction w with
  | nil => exact absurd rfl hw
  | cons a w ih =>
      cases w with
      | nil => simp
      | cons b w' => simpa using Or.inr (ih (by simp))

theorem mem_of_mem_dropLast {b : Counts} {w : List Counts}
    (h : b ∈ w.dropLast) : b ∈ w := by
  induction w with
  | nil => simp at h
  | cons a w ih =>
      cases w with
      | nil => simp at h
      | cons c w' =>
          rcases (by simpa using h : b = a ∨ b ∈ (c :: w').dropLast) with h' | h'
          · simp [h']
          · simpa using Or.inr (ih h')

theorem getLastD_cons_ne (a : Counts) (l : List Counts) (hl : l ≠ []) (d : Counts) :
    (a :: l).getLastD d = l.getLastD d := by
  cases l with
  | nil => exact absurd rfl hl
  | cons b w => simp [List.getLastD_cons]

theorem sumWindow_dropLast (w : List Counts) (hw : w ≠ []) :
    sumWindow w = (sumWindow w.dropLast).add (w.getLastD Counts.zero) := by
  induction w with
  | nil => exact absurd rfl hw
  | cons a w ih =>
      cases w with
      | nil => simp [sumWindow_cons, sumWindow_nil, Counts.add_zero, Counts.zero_add]
      | cons b w' =>
          have hne : (b :: w') ≠ [] := by simp
          calc sumWindow (a :: b :: w') = a.add (sumWindow (b :: w')) := rfl
            _ = a.add ((sumWindow (b :: w').dropLast).add ((b :: w').getLastD Counts.zero)) := by
                  rw [ih hne]
            _ = (a.add (sumWindow (b :: w').dropLast)).add ((b :: w').getLastD Counts.zero) := by
                  rw [Counts.add_assoc]
            _ = (sumWindow ((a :: b :: w').dropLast)).add ((a :: b :: w').getLastD Counts.zero) := by
                  rw [List.dropLast_cons₂, sumWindow_cons, getLastD_cons_ne a _ hne]

/-- The invariant maintained by every reachable state: a non-empty window,
the summary equal to the componentwise sum of the window, every bucket with
`Total = Fail + Success`, at most one live recovery task (mirrored exactly by
the `onHalfOpenTimeout` flag and only while `Open`), and at least two frames
in the half-open state (history plus the probe frame). -/
def Inv (c : CircuitBreaker) : Prop :=
  c.window ≠ [] ∧
  c.summary = sumWindow c.window ∧
  (∀ b ∈ c.window, b.Total = b.Fail + b.Success) ∧
  c.pending ≤ 1 ∧
  (c.onHalfOpenTimeout = true ↔ c.pending = 1) ∧
  (c.pending = 1 → c.s = State.Open) ∧
  (c.s = State.HalfOpen → 2 ≤ c.window.length)

theorem inv_initCB (frames : Nat) (h : 1 ≤ frames) : Inv (initCB frames) := by
  refine ⟨?_, ?_, ?_, ?_, ?_, ?_, ?_⟩
  · simp [initCB]; omega
  · simp [initCB, sumWindow_replicate_zero]
  · intro b hb
    simp [initCB, List.eq_of_mem_replicate hb, Counts.zero]
  · simp [initCB]
  · simp [initCB]
  · simp [initCB]
  · simp [initCB]

theorem dropLast_ne_nil_of_two_le {w : List Counts} (h2 : 2 ≤ w.length) :
    w.dropLast ≠ [] := by
  have hl := List.length_dropLast w
  intro hc
  rw [hc] at hl
  simp at hl
  omega

theorem inv_incr_general (c : CircuitBreaker) (δ : Counts)
    (hδ : δ.Total = δ.Fail + δ.Success) (h : Inv c) :
    Inv { c with window := modifyLast (fun b => b.add δ) c.window,
                 summary := c.summary.add δ } := by
  obtain ⟨hne, hsum, hbk, hp, hflag, hps, hho⟩ := h
  have hmod := modifyLast_eq (fun b => b.add δ) c.window hne
  refine ⟨?_, ?_, ?_, hp, hflag, hps, ?_⟩
  · rw [hmod]; simp
  · show c.summary.add δ = sumWindow (modifyLast (fun b => b.add δ) c.window)
    rw [hmod, sumWindow_append, sumWindow_cons, sumWindow_nil, Counts.add_zero,
        ← Counts.add_assoc, ← sumWindow_dropLast c.window hne, hsum]
  · intro b hb
    rw [hmod] at hb
    rcases List.mem_append.mp hb with hb | hb
    · exact hbk b (mem_of_mem_dropLast hb)
    · have hlast := hbk _ (getLastD_mem c.window hne)
      have hbeq : b = (c.window.getLastD Counts.zero).add δ := by simpa using hb
      rw [hbeq]
      simp [Counts.add] at hlast ⊢
      omega
  · intro hh
    have hs' : c.s = State.HalfOpen := hh
    have h2 := hho hs'
    show 2 ≤ (modifyLast (fun b => b.add δ) c.window).length
    rw [modifyLast_length]
    exact h2

theorem incrSuccess_eq (c : CircuitBreaker) :
    incrSuccess c = { c with window := modifyLast (fun b => b.add ⟨1, 0, 1⟩) c.window,
                             summary := c.summary.add ⟨1, 0, 1⟩ } := by
  have hf : (fun b : Counts => { b with Total := b.Total + 1, Success := b.Success + 1 }) =
      (fun b : Counts => b.add ⟨1, 0, 1⟩) := by
    funext b; cases b; simp [Counts.add]
  have hs : ∀ x : Counts,
      ({ x with Total := x.Total + 1, Success := x.Success + 1 } : Counts) =
        x.add ⟨1, 0, 1⟩ := by
    intro x; cases x; simp [Counts.add]
  rw [incrSuccess, hf, hs]

theorem incrFail_eq (c : CircuitBreaker) :
    incrFail c = { c with window := modifyLast (fun b => b.add ⟨1, 1, 0⟩) c.window,
                          summary := c.summary.add ⟨1, 1, 0⟩ } := by
  have hf : (fun b : Counts => { b with Total := b.Total + 1, Fail := b.Fail + 1 }) =
      (fun b : Counts => b.add ⟨1, 1, 0⟩) := by
    funext b; cases b; simp [Counts.add]
  have hs : ∀ x : Counts,
      ({ x with Total := x.Total + 1, Fail := x.Fail + 1 } : Counts) =
        x.add ⟨1, 1, 0⟩ := by
    intro x; cases x; simp [Counts.add]
  rw [incrFail, hf, hs]

theorem inv_incrSuccess (c : CircuitBreaker) (h : Inv c) : Inv (incrSuccess c) := by
  rw [incrSuccess_eq]
  exact inv_incr_general c ⟨1, 0, 1⟩ (by simp) h

theorem inv_incrFail (c : CircuitBreaker) (h : Inv c) : Inv (incrFail c) := by
  rw [incrFail_eq]
  exact inv_incr_general c ⟨1, 1, 0⟩ (by simp) h

theorem inv_moveWindow (c : CircuitBreaker) (h : Inv c) : Inv (moveWindow c) := by
  obtain ⟨hne, hsum, hbk, hp, hflag, hps, hho⟩ := h
  cases hw : c.window with
  | nil => exact absurd hw hne
  | cons a t =>
      refine ⟨?_, ?_, ?_, hp, hflag, hps, ?_⟩
      · simp [moveWindow, addFrame, decrSummary]
      · show (c.summary.sub ((c.window.headD Counts.zero))) =
          sumWindow (c.window.tail ++ [Counts.zero])
        rw [hsum, hw, List.headD_cons, List.tail_cons, sumWindow_cons,
            Counts.add_sub_cancel_left, sumWindow_append, sumWindow_cons, sumWindow_nil,
            Counts.add_zero, Counts.add_zero]
      · intro b hb
        simp only [moveWindow, addFrame, decrSummary, hw, List.tail_cons] at hb
        rcases List.mem_append.mp hb with hb | hb
        · exact hbk b (by rw [hw]; exact List.mem_cons_of_mem a hb)
        · have : b = Counts.zero := by simpa using hb
          simp [this, Counts.zero]
      · intro hh
        simp only [moveWindow, addFrame, decrSummary, hw, List.tail_cons]
        have := hho hh
        rw [hw] at this
        simp at this ⊢
        omega

theorem inv_waitHalfOpenFire (c : CircuitBreaker) (h : Inv c) : Inv (waitHalfOpenFire c) := by
  obtain ⟨hne, hsum, hbk, hp, hflag, hps, hho⟩ := h
  refine ⟨?_, ?_, ?_, ?_, ?_, ?_, ?_⟩
  · simp [waitHalfOpenFire, addFrame]
  · show c.summary = sumWindow (c.window ++ [Counts.zero])
    rw [sumWindow_append, sumWindow_cons, sumWindow_nil, Counts.add_zero,
        Counts.add_zero, hsum]
  · intro b hb
    simp only [waitHalfOpenFire, addFrame] at hb
    rcases List.mem_append.mp hb with hb | hb
    · exact hbk b hb
    · have : b = Counts.zero := by simpa using hb
      simp [this, Counts.zero]
  · show c.pending - 1 ≤ 1
    omega
  · show (false = true ↔ c.pending - 1 = 1)
    simp
    omega
  · intro hcontra
    have hc' : c.pending - 1 = 1 := hcontra
    exact absurd hc' (by omega)
  · intro _
    have h1 : 1 ≤ c.window.length := List.length_pos.mpr hne
    simp [waitHalfOpenFire, addFrame]
    omega


/-- The state reached by tripping from `c` (state `Open`, one armed task). -/
def armOpen (c : CircuitBreaker) : CircuitBreaker :=
  { c with s := State.Open, onHalfOpenTimeout := true, pending := c.pending + 1 }

theorem afterExecute_closed_trip (p : Policies) (c : CircuitBreaker)
    (hs : c.s = State.Closed) (ht : p.canTrip c.summary = true) :
    afterExecute p c = armOpen c := by
  simp [afterExecute, hs, ht, armOpen]

theorem afterExecute_closed_stay (p : Policies) (c : CircuitBreaker)
    (hs : c.s = State.Closed) (ht : ¬p.canTrip c.summary = true) :
    afterExecute p c = c := by
  simp [afterExecute, hs, ht]

theorem afterExecute_open (p : Policies) (c : CircuitBreaker)
    (hs : c.s = State.Open) : afterExecute p c = c := by
  simp [afterExecute, hs]

theorem afterExecute_halfOpen_stay (p : Policies) (c : CircuitBreaker)
    (hs : c.s = State.HalfOpen)
    (hpol : p.fromHalfOpenToState (currentFrameCopy c) = State.HalfOpen) :
    afterExecute p c = c := by
  simp [afterExecute, hs, hpol]

theorem afterExecute_halfOpen_open (p : Policies) (c : CircuitBreaker)
    (hs : c.s = State.HalfOpen) (hfl : c.onHalfOpenTimeout = false)
    (hpol : p.fromHalfOpenToState (currentFrameCopy c) = State.Open) :
    afterExecute p c = popWindow (armOpen c) := by
  simp [afterExecute, hs, hpol, hfl, armOpen]

theorem afterExecute_halfOpen_open_busy (p : Policies) (c : CircuitBreaker)
    (hs : c.s = State.HalfOpen) (hfl : c.onHalfOpenTimeout = true)
    (hpol : p.fromHalfOpenToState (currentFrameCopy c) = State.Open) :
    afterExecute p c = c := by
  simp [afterExecute, hs, hpol, hfl]

theorem afterExecute_halfOpen_closed (p : Policies) (c : CircuitBreaker)
    (hs : c.s = State.HalfOpen)
    (hpol : p.fromHalfOpenToState (currentFrameCopy c) = State.Closed) :
    afterExecute p c = aggregateHalfOpenFrame { c with s := State.Closed } := by
  simp [afterExecute, hs, hpol]

theorem inv_afterExecute (p : Policies) (c : CircuitBreaker) (h : Inv c) :
    Inv (afterExecute p c) := by
  obtain ⟨hne, hsum, hbk, hp, hflag, hps, hho⟩ := h
  cases hs : c.s with
  | Closed =>
      have hpend0 : c.pending = 0 := by
        by_cases h1 : c.pending = 1
        · rw [hps h1] at hs; cases hs
        · omega
      by_cases ht : p.canTrip c.summary = true
      · rw [afterExecute_closed_trip p c hs ht]
        refine ⟨hne, hsum, hbk, by simp [armOpen, hpend0], by simp [armOpen, hpend0],
          fun _ => rfl, ?_⟩
        intro hcontra
        cases hcontra
      · rw [afterExecute_closed_stay p c hs ht]
        exact ⟨hne, hsum, hbk, hp, hflag, hps, hho⟩
  | Open =>
      rw [afterExecute_open p c hs]
      exact ⟨hne, hsum, hbk, hp, hflag, hps, hho⟩
  | HalfOpen =>
      have h2 : 2 ≤ c.window.length := hho hs
      have hdne : c.window.dropLast ≠ [] := dropLast_ne_nil_of_two_le h2
      have hpne1 : c.pending ≠ 1 := by
        intro h1; rw [hps h1] at hs; cases hs
      cases hpol : p.fromHalfOpenToState (currentFrameCopy c) with
      | Open =>
          cases hfl : c.onHalfOpenTimeout with
          | true =>
              rw [afterExecute_halfOpen_open_busy p c hs hfl hpol]
              exact ⟨hne, hsum, hbk, hp, hflag, hps, hho⟩
          | false =>
              rw [afterExecute_halfOpen_open p c hs hfl hpol]
              have hpend0 : c.pending = 0 := by omega
              refine ⟨?_, ?_, ?_, by simp [popWindow, decrSummary, armOpen, hpend0],
                by simp [popWindow, decrSummary, armOpen, hpend0], fun _ => rfl, ?_⟩
              · exact hdne
              · show c.summary.sub (c.window.getLastD Counts.zero) =
                  sumWindow c.window.dropLast
                rw [hsum, sumWindow_dropLast c.window hne, Counts.add_sub_cancel]
              · intro b hb
                exact hbk b (mem_of_mem_dropLast hb)
              · intro hcontra
                cases hcontra
      | Closed =>
          rw [afterExecute_halfOpen_closed p c hs hpol]
          have hmod := modifyLast_eq
            (fun b => b.add (c.window.getLastD Counts.zero)) c.window.dropLast hdne
          refine ⟨?_, ?_, ?_, hp, hflag, ?_, ?_⟩
          · show modifyLast (fun b => b.add (c.window.getLastD Counts.zero))
              c.window.dropLast ≠ []
            rw [hmod]; simp
          · show c.summary = sumWindow (modifyLast
              (fun b => b.add (c.window.getLastD Counts.zero)) c.window.dropLast)
            rw [hmod, sumWindow_append, sumWindow_cons, sumWindow_nil, Counts.add_zero,
                ← Counts.add_assoc, ← sumWindow_dropLast c.window.dropLast hdne,
                ← sumWindow_dropLast c.window hne, hsum]
          · intro b hb
            have hb' : b ∈ modifyLast
                (fun b => b.add (c.window.getLastD Counts.zero)) c.window.dropLast := hb
            rw [hmod] at hb'
            rcases List.mem_append.mp hb' with hb'' | hb''
            · exact hbk b (mem_of_mem_dropLast (mem_of_mem_dropLast hb''))
            · have hbl := hbk _ (mem_of_mem_dropLast (getLastD_mem c.window.dropLast hdne))
              have hbw := hbk _ (getLastD_mem c.window hne)
              have hbeq : b = (c.window.dropLast.getLastD Counts.zero).add
                  (c.window.getLastD Counts.zero) := by simpa using hb''
              rw [hbeq]
              simp [Counts.add] at hbl hbw ⊢
              omega
          · intro h1
            exact absurd h1 hpne1
          · intro hcontra
            cases hcontra
      | HalfOpen =>
          rw [afterExecute_halfOpen_stay p c hs hpol]
          exact ⟨hne, hsum, hbk, hp, hflag, hps, hho⟩

theorem Execute_rejected {ε π : Type} (p : Policies) (fn : Outcome ε π)
    (c : CircuitBreaker) (ho : c.s = State.Open) :
    Execute p fn c = (ExecResult.openCircuit, afterExecute p c) := by
  cases fn <;> simp [Execute, canExecute, ho]

theorem Execute_admitted_ok {ε π : Type} (p : Policies) (c : CircuitBreaker)
    (ho : ¬c.s = State.Open) :
    Execute (ε := ε) (π := π) p Outcome.ok c =
      (ExecResult.success, afterExecute p (incrSuccess c)) := by
  simp [Execute, canExecute, ho]

theorem Execute_admitted_fail {ε π : Type} (p : Policies) (e : ε) (c : CircuitBreaker)
    (ho : ¬c.s = State.Open) :
    Execute (π := π) p (Outcome.fail e) c =
      (ExecResult.opError e, afterExecute p (incrFail c)) := by
  simp [Execute, canExecute, ho]

theorem Execute_admitted_panics {ε π : Type} (p : Policies) (v : π) (c : CircuitBreaker)
    (ho : ¬c.s = State.Open) :
    Execute (ε := ε) p (Outcome.panics v) c =
      (ExecResult.panicked v, afterExecute p (incrFail c)) := by
  simp [Execute, canExecute, ho]

theorem step_inv {p : Policies} {c c' : CircuitBreaker}
    (h : Inv c) (hstep : Step p c c') : Inv c' := by
  cases hstep with
  | exec fn c =>
      by_cases ho : c.s = State.Open
      · rw [Execute_rejected p fn c ho]
        exact inv_afterExecute p c h
      · cases fn with
        | ok =>
            rw [Execute_admitted_ok p c ho]
            exact inv_afterExecute p _ (inv_incrSuccess c h)
        | fail e =>
            rw [Execute_admitted_fail p e c ho]
            exact inv_afterExecute p _ (inv_incrFail c h)
        | panics v =>
            rw [Execute_admitted_panics p v c ho]
            exact inv_afterExecute p _ (inv_incrFail c h)
  | frameTick c hclosed => exact inv_moveWindow c h
  | halfOpenFire c hpend => exact inv_waitHalfOpenFire c h

theorem reachable_inv {p : Policies} {c : CircuitBreaker} (h : Reachable p c) : Inv c := by
  induction h with
  | init frames hf => exact inv_initCB frames hf
  | step hr hstep ih => exact step_inv ih hstep

/-- Integer form of `defaultCanTrip`: over positive totals,
`(Fail/Total)*100 ≥ 60` is exactly `60*Total ≤ 100*Fail`.  Used so the kernel
can evaluate concrete runs; proved equal to `defaultCanTrip` below. -/
def defaultCanTripNat (summary : Counts) : Bool :=
  decide (10 < summary.Total) && decide (60 * summary.Total ≤ 100 * summary.Fail)

theorem defaultCanTrip_eq_nat (c : Counts) : defaultCanTrip c = defaultCanTripNat c := by
  unfold defaultCanTrip defaultCanTripNat
  by_cases ht : 10 < c.Total
  · have htot : (0 : ℚ) < (c.Total : ℚ) := by
      have h0 : 0 < c.Total := by omega
      exact_mod_cast h0
    simp only [ht, decide_true_eq_true, Bool.true_and]
    rw [decide_eq_decide, div_mul_eq_mul_div, le_div_iff₀ htot,
        mul_comm ((c.Fail : ℚ)) (100 : ℚ)]
    exact_mod_cast Iff.rfl
  · simp [ht]

/-- The default policy pair with `canTrip` in its integer form. -/
def defaultPoliciesNat : Policies :=
  ⟨defaultCanTripNat, defaultFromHalfOpenToState⟩

theorem defaultPolicies_eq_nat : defaultPolicies = defaultPoliciesNat := by
  unfold defaultPolicies defaultPoliciesNat
  rw [funext defaultCanTrip_eq_nat]

/-- C10: the default trip policy is total and returns `false` whenever
`Total ≤ 10`, regardless of `Fail` — in particular the failure-ratio
division (zero denominator included) can never decide a trip on its own. -/
theorem defaultCanTrip_false_of_total_le_ten (c : Counts) (h : c.Total ≤ 10) :
    defaultCanTrip c = false := by
  rw [defaultCanTrip_eq_nat]
  unfold defaultCanTripNat
  have : ¬(10 < c.Total) := by omega
  simp [this]

/-- Witness for C10 at `Counts{Total: 0, Fail: 0, Success: 0}` (the
zero-denominator input) and at `Counts{Total: 10, Fail: 10, Success: 0}`
(all-failure input at the sample floor). -/
theorem defaultCanTrip_false_of_total_le_ten_witness :
    (0 ≤ 10 ∧ defaultCanTrip ⟨0, 0, 0⟩ = false) ∧
      (10 ≤ 10 ∧ defaultCanTrip ⟨10, 10, 0⟩ = false) :=
  ⟨⟨by decide, defaultCanTrip_false_of_total_le_ten ⟨0, 0, 0⟩ (by decide)⟩,
   ⟨by decide, defaultCanTrip_false_of_total_le_ten ⟨10, 10, 0⟩ (by decide)⟩⟩

/-- C6 counterexample: a single clean probe success
(`Total = 1, Fail = 0, Success = 1`) does NOT close the breaker under the
default half-open policy — it returns `HalfOpen`, not `Closed`. -/
theorem defaultFromHalfOpenToState_single_success_not_closed :
    defaultFromHalfOpenToState ⟨1, 0, 1⟩ = State.HalfOpen ∧
      defaultFromHalfOpenToState ⟨1, 0, 1⟩ ≠ State.Closed := by
  constructor
  · rfl
  · intro h; cases h

/-- C6 amended: the default half-open policy returns `Open` exactly when the
probe counts hold at least one failure, `Closed` exactly when there are no
failures and strictly more than 100 samples, and `HalfOpen` otherwise (in
particular for a single clean success). -/
theorem defaultFromHalfOpenToState_characterization (c : Counts) :
    (defaultFromHalfOpenToState c = State.Open ↔ 0 < c.Fail) ∧
      (defaultFromHalfOpenToState c = State.Closed ↔ c.Fail = 0 ∧ 100 < c.Total) ∧
      (defaultFromHalfOpenToState c = State.HalfOpen ↔ c.Fail = 0 ∧ c.Total ≤ 100) := by
  unfold defaultFromHalfOpenToState
  by_cases hf : 0 < c.Fail
  · refine ⟨?_, ?_, ?_⟩ <;> simp [hf] <;> omega
  · have hf0 : c.Fail = 0 := by omega
    by_cases ht : 100 < c.Total
    · have hdiv : c.Fail / c.Total * 100 < 99 := by
        rw [hf0]
        simp
      refine ⟨?_, ?_, ?_⟩ <;> simp [hf, ht, hdiv, hf0]
    · refine ⟨?_, ?_, ?_⟩ <;> simp [hf, ht, hf0]
      all_goals omega

theorem reachable_runList (p : Policies) (os : List (Outcome Unit Unit))
    {c : CircuitBreaker} (h : Reachable p c) : Reachable p (runList p os c) := by
  induction os generalizing c with
  | nil => exact h
  | cons o os ih => exact ih (Reachable.step h (Step.exec o c))

/-- The call sequence of the spec's trip scenario: 7 failing calls followed by
4 successful calls. -/
def tripCalls : List (Outcome Unit Unit) :=
  List.replicate 7 (Outcome.fail ()) ++ List.replicate 4 Outcome.ok

/-- The breaker state after feeding `tripCalls` to a freshly constructed
default breaker (window of 300/15 = 20 frames). -/
def trippedState (p : Policies) : CircuitBreaker :=
  runList p tripCalls (initCB 20)

/-- The state after the armed recovery task fires on the tripped breaker. -/
def halfOpenEntry (p : Policies) : CircuitBreaker :=
  waitHalfOpenFire (trippedState p)

/-- The state after one successful probe call has been executed in the
half-open state. -/
def probedState (p : Policies) : CircuitBreaker :=
  (Execute p (Outcome.ok : Outcome Unit Unit) (halfOpenEntry p)).2

/-- C4: with the default policies, a fresh breaker stays `Closed` through the
first 10 of the 7-failures-then-4-successes calls, trips to `Open` exactly on
completion of the 11th, and a 12th call is rejected with the open-circuit
error while changing nothing. -/
theorem default_trip_on_eleventh_call :
    New 15 300 30 = some (initCB 20) ∧
    ((List.range 11).map fun k =>
        (runList defaultPolicies (tripCalls.take k) (initCB 20)).s) =
      List.replicate 11 State.Closed ∧
    (trippedState defaultPolicies).s = State.Open ∧
    Execute defaultPolicies (Outcome.ok : Outcome Unit Unit)
        (trippedState defaultPolicies) =
      (ExecResult.openCircuit, trippedState defaultPolicies) := by
  rw [defaultPolicies_eq_nat]
  decide

/-- C8: evaluating the constructor at the repo's own test inputs: `New()`
with the default 15s/300s thresholds yields a window of 20 buckets, not the
single empty bucket the tests assert, and the 222s/4759s configuration
yields 21 buckets. -/
theorem new_window_starts_at_capacity :
    New 15 300 30 = some (initCB 20) ∧
    (initCB 20).window.length = 20 ∧
    (initCB 20).window ≠ [Counts.zero] ∧
    New 222 4759 21 = some (initCB 21) ∧
    (initCB 21).window.length = 21 := by
  decide

theorem sumWindow_total (w : List Counts)
    (h : ∀ b ∈ w, b.Total = b.Fail + b.Success) :
    (sumWindow w).Total = (sumWindow w).Fail + (sumWindow w).Success := by
  induction w with
  | nil => rfl
  | cons a t ih =>
      have ha := h a (by simp)
      have ht' := ih (fun b hb => h b (by simp [hb]))
      simp [sumWindow_cons, Counts.add]
      omega

/-- C1: on every reachable state of a constructed breaker the summary equals
the componentwise sum of the window's buckets, every bucket satisfies
`Total = Fail + Success`, and so does the summary; since `Reachable` is closed
under every count-mutating step (`Execute` recording, window rotation, the
recovery task firing, probe resolution), each of those operations preserves
both equalities. -/
theorem summary_is_sum_of_buckets (p : Policies) (c : CircuitBreaker)
    (hr : Reachable p c) :
    c.summary = sumWindow c.window ∧
    (∀ b ∈ c.window, b.Total = b.Fail + b.Success) ∧
    c.summary.Total = c.summary.Fail + c.summary.Success := by
  obtain ⟨hne, hsum, hbk, _⟩ := reachable_inv hr
  refine ⟨hsum, hbk, ?_⟩
  rw [hsum]
  exact sumWindow_total c.window hbk

/-- Witness for C1 on the concrete state reached by one failing and one
successful call against a default breaker. -/
theorem summary_is_sum_of_buckets_witness :
    Reachable defaultPolicies
      (runList defaultPolicies [Outcome.fail (), Outcome.ok] (initCB 20)) ∧
    ((runList defaultPolicies [Outcome.fail (), Outcome.ok] (initCB 20)).summary =
        sumWindow (runList defaultPolicies [Outcome.fail (), Outcome.ok]
          (initCB 20)).window ∧
      (∀ b ∈ (runList defaultPolicies [Outcome.fail (), Outcome.ok]
          (initCB 20)).window, b.Total = b.Fail + b.Success) ∧
      (runList defaultPolicies [Outcome.fail (), Outcome.ok]
          (initCB 20)).summary.Total =
        (runList defaultPolicies [Outcome.fail (), Outcome.ok]
          (initCB 20)).summary.Fail +
        (runList defaultPolicies [Outcome.fail (), Outcome.ok]
          (initCB 20)).summary.Success) :=
  have hr : Reachable defaultPolicies
      (runList defaultPolicies [Outcome.fail (), Outcome.ok] (initCB 20)) :=
    reachable_runList defaultPolicies _ (Reachable.init 20 (by decide))
  ⟨hr, summary_is_sum_of_buckets defaultPolicies _ hr⟩

/-- C9: on every reachable state at most one recovery task is live, the
`onHalfOpenTimeout` flag holds exactly when one is live, and a live task
implies the breaker is `Open` — so re-entering `Open` can never arm a second
timer and the one-shot task never double-fires. -/
theorem at_most_one_recovery_task (p : Policies) (c : CircuitBreaker)
    (hr : Reachable p c) :
    c.pending ≤ 1 ∧ (c.onHalfOpenTimeout = true ↔ c.pending = 1) ∧
      (c.pending = 1 → c.s = State.Open) := by
  obtain ⟨_, _, _, hp, hflag, hps, _⟩ := reachable_inv hr
  exact ⟨hp, hflag, hps⟩

/-- Witness for C9 on the tripped state (recovery task armed). -/
theorem at_most_one_recovery_task_witness :
    Reachable defaultPolicies (trippedState defaultPolicies) ∧
    ((trippedState defaultPolicies).pending ≤ 1 ∧
      ((trippedState defaultPolicies).onHalfOpenTimeout = true ↔
        (trippedState defaultPolicies).pending = 1) ∧
      ((trippedState defaultPolicies).pending = 1 →
        (trippedState defaultPolicies).s = State.Open)) :=
  have hr : Reachable defaultPolicies (trippedState defaultPolicies) :=
    reachable_runList defaultPolicies tripCalls (Reachable.init 20 (by decide))
  ⟨hr, at_most_one_recovery_task defaultPolicies _ hr⟩

/-- C5: any `Execute` call on an `Open` breaker returns the open-circuit
rejection and leaves the breaker completely unchanged — and since the result
is the same for every `fn`, the wrapped operation is never invoked. -/
theorem Execute_open_rejects {ε π : Type} (p : Policies) (fn : Outcome ε π)
    (c : CircuitBreaker) (hs : c.s = State.Open) :
    Execute p fn c = (ExecResult.openCircuit, c) := by
  rw [Execute_rejected p fn c hs, afterExecute_open p c hs]

/-- Witness for C5 at a concrete open state, for all three operation shapes. -/
theorem Execute_open_rejects_witness :
    (⟨State.Open, true, [Counts.zero], Counts.zero, 1⟩ : CircuitBreaker).s =
        State.Open ∧
    Execute defaultPolicies (Outcome.ok : Outcome Nat Nat)
        ⟨State.Open, true, [Counts.zero], Counts.zero, 1⟩ =
      (ExecResult.openCircuit, ⟨State.Open, true, [Counts.zero], Counts.zero, 1⟩) ∧
    Execute defaultPolicies (Outcome.fail 5 : Outcome Nat Nat)
        ⟨State.Open, true, [Counts.zero], Counts.zero, 1⟩ =
      (ExecResult.openCircuit, ⟨State.Open, true, [Counts.zero], Counts.zero, 1⟩) ∧
    Execute defaultPolicies (Outcome.panics 7 : Outcome Nat Nat)
        ⟨State.Open, true, [Counts.zero], Counts.zero, 1⟩ =
      (ExecResult.openCircuit, ⟨State.Open, true, [Counts.zero], Counts.zero, 1⟩) :=
  ⟨rfl,
   Execute_open_rejects defaultPolicies (Outcome.ok : Outcome Nat Nat) _ rfl,
   Execute_open_rejects defaultPolicies (Outcome.fail 5 : Outcome Nat Nat) _ rfl,
   Execute_open_rejects defaultPolicies (Outcome.panics 7 : Outcome Nat Nat) _ rfl⟩

/-- C7: an admitted call (state not `Open`) returns the operation's own
outcome unchanged — `nil` gives `success`, an error value is returned
identically, a panic value is re-raised identically after being counted as a
failure — and the recording adds exactly one success (resp. one failure) to
the summary. -/
theorem Execute_passthrough {ε π : Type} (p : Policies) (c : CircuitBreaker)
    (hs : ¬c.s = State.Open) (e : ε) (v : π) :
    Execute p (Outcome.ok : Outcome ε π) c =
        (ExecResult.success, afterExecute p (incrSuccess c)) ∧
    Execute p (Outcome.fail e : Outcome ε π) c =
        (ExecResult.opError e, afterExecute p (incrFail c)) ∧
    Execute p (Outcome.panics v : Outcome ε π) c =
        (ExecResult.panicked v, afterExecute p (incrFail c)) ∧
    ((incrSuccess c).summary.Success = c.summary.Success + 1 ∧
      (incrSuccess c).summary.Total = c.summary.Total + 1 ∧
      (incrSuccess c).summary.Fail = c.summary.Fail) ∧
    ((incrFail c).summary.Fail = c.summary.Fail + 1 ∧
      (incrFail c).summary.Total = c.summary.Total + 1 ∧
      (incrFail c).summary.Success = c.summary.Success) :=
  ⟨Execute_admitted_ok p c hs, Execute_admitted_fail p e c hs,
   Execute_admitted_panics p v c hs,
   ⟨rfl, rfl, rfl⟩, ⟨rfl, rfl, rfl⟩⟩

/-- Witness for C7 on a fresh default breaker with `Nat`-valued errors and
panic payloads. -/
theorem Execute_passthrough_witness :
    ¬(initCB 20).s = State.Open ∧
    (Execute defaultPolicies (Outcome.ok : Outcome Nat Nat) (initCB 20) =
        (ExecResult.success, afterExecute defaultPolicies (incrSuccess (initCB 20))) ∧
      Execute defaultPolicies (Outcome.fail 5 : Outcome Nat Nat) (initCB 20) =
        (ExecResult.opError 5, afterExecute defaultPolicies (incrFail (initCB 20))) ∧
      Execute defaultPolicies (Outcome.panics 7 : Outcome Nat Nat) (initCB 20) =
        (ExecResult.panicked 7, afterExecute defaultPolicies (incrFail (initCB 20))) ∧
      ((incrSuccess (initCB 20)).summary.Success = (initCB 20).summary.Success + 1 ∧
        (incrSuccess (initCB 20)).summary.Total = (initCB 20).summary.Total + 1 ∧
        (incrSuccess (initCB 20)).summary.Fail = (initCB 20).summary.Fail) ∧
      ((incrFail (initCB 20)).summary.Fail = (initCB 20).summary.Fail + 1 ∧
        (incrFail (initCB 20)).summary.Total = (initCB 20).summary.Total + 1 ∧
        (incrFail (initCB 20)).summary.Success = (initCB 20).summary.Success)) :=
  ⟨by decide, Execute_passthrough defaultPolicies (initCB 20) (by decide) 5 7⟩

theorem getLastD_append_singleton (l : List Counts) (a d : Counts) :
    (l ++ [a]).getLastD d = a := by
  induction l generalizing d with
  | nil => rfl
  | cons x xs ih => rw [List.cons_append, List.getLastD_cons]; exact ih x

/-- C2 counterexample: on the reachable default-policy state where the
breaker is Half-Open and one probe call has already been recorded (probe
frame `Total = 1`), a further `Execute` call is NOT rejected with any
half-open-busy error — it is admitted, returns the operation's success, and
changes the summary. -/
theorem halfOpen_second_caller_not_rejected :
    Reachable defaultPolicies (probedState defaultPolicies) ∧
    (probedState defaultPolicies).s = State.HalfOpen ∧
    (currentFrameCopy (probedState defaultPolicies)).Total = 1 ∧
    (Execute defaultPolicies (Outcome.ok : Outcome Unit Unit)
        (probedState defaultPolicies)).1 = ExecResult.success ∧
    (Execute defaultPolicies (Outcome.ok : Outcome Unit Unit)
        (probedState defaultPolicies)).2.summary ≠
      (probedState defaultPolicies).summary := by
  constructor
  · have h0 : Reachable defaultPolicies (trippedState defaultPolicies) :=
      reachable_runList defaultPolicies tripCalls (Reachable.init 20 (by decide))
    have hpend : 0 < (trippedState defaultPolicies).pending := by
      rw [defaultPolicies_eq_nat]; decide
    have h1 : Reachable defaultPolicies (halfOpenEntry defaultPolicies) :=
      Reachable.step h0 (Step.halfOpenFire _ hpend)
    exact Reachable.step h1 (Step.exec Outcome.ok _)
  · rw [defaultPolicies_eq_nat]
    decide

/-- C2 amended: while Half-Open this version admits every caller —
`canExecute` rejects only `Open`, no call ever observes an open-circuit (or
any other) rejection, and each recorded outcome lands in the current probe
frame. -/
theorem halfOpen_admits_all_callers (p : Policies) (c : CircuitBreaker)
    (hs : c.s = State.HalfOpen) (hne : c.window ≠ []) :
    canExecute c = none ∧
    (∀ (ε π : Type) (fn : Outcome ε π),
      (Execute p fn c).1 ≠ ExecResult.openCircuit) ∧
    (currentFrameCopy (incrSuccess c)).Total = (currentFrameCopy c).Total + 1 ∧
    (currentFrameCopy (incrFail c)).Total = (currentFrameCopy c).Total + 1 := by
  have ho : ¬c.s = State.Open := by rw [hs]; intro h; cases h
  refine ⟨by simp [canExecute, hs], ?_, ?_, ?_⟩
  · intro ε π fn
    cases fn with
    | ok => rw [Execute_admitted_ok p c ho]; intro h; cases h
    | fail e => rw [Execute_admitted_fail p e c ho]; intro h; cases h
    | panics v => rw [Execute_admitted_panics p v c ho]; intro h; cases h
  · show ((modifyLast
        (fun b => { b with Total := b.Total + 1, Success := b.Success + 1 })
        c.window).getLastD Counts.zero).Total =
      (c.window.getLastD Counts.zero).Total + 1
    rw [modifyLast_eq _ _ hne, getLastD_append_singleton]
  · show ((modifyLast
        (fun b => { b with Total := b.Total + 1, Fail := b.Fail + 1 })
        c.window).getLastD Counts.zero).Total =
      (c.window.getLastD Counts.zero).Total + 1
    rw [modifyLast_eq _ _ hne, getLastD_append_singleton]

/-- Witness for C2 amended at the reachable state where the probe has already
been recorded. -/
theorem halfOpen_admits_all_callers_witness :
    (probedState defaultPolicies).s = State.HalfOpen ∧
    (probedState defaultPolicies).window ≠ [] ∧
    (canExecute (probedState defaultPolicies) = none ∧
      (∀ (ε π : Type) (fn : Outcome ε π),
        (Execute defaultPolicies fn (probedState defaultPolicies)).1 ≠
          ExecResult.openCircuit) ∧
      (currentFrameCopy (incrSuccess (probedState defaultPolicies))).Total =
        (currentFrameCopy (probedState defaultPolicies)).Total + 1 ∧
      (currentFrameCopy (incrFail (probedState defaultPolicies))).Total =
        (currentFrameCopy (probedState defaultPolicies)).Total + 1) :=
  have h1 : (probedState defaultPolicies).s = State.HalfOpen := by
    rw [defaultPolicies_eq_nat]; decide
  have h2 : (probedState defaultPolicies).window ≠ [] := by
    rw [defaultPolicies_eq_nat]; decide
  ⟨h1, h2, halfOpen_admits_all_callers defaultPolicies _ h1 h2⟩

/-- A policy pair that trips on anything and resolves every probe to
`Closed`, exercising the Half-Open→Closed path. -/
def alwaysClosePolicies : Policies :=
  ⟨fun _ => true, fun _ => State.Closed⟩

/-- State of a 2-frame breaker after one failing call has tripped it and the
recovery task has fired (Half-Open, probe frame appended). -/
def halfOpenEntryC3 : CircuitBreaker :=
  waitHalfOpenFire
    ((Execute alwaysClosePolicies (Outcome.fail () : Outcome Unit Unit)
      (initCB 2)).2)

/-- State after the successful probe resolves that breaker to `Closed`. -/
def closeProbeRun : CircuitBreaker :=
  (Execute alwaysClosePolicies (Outcome.ok : Outcome Unit Unit) halfOpenEntryC3).2

/-- C3 counterexample: after a successful probe resolves Half-Open→Closed,
the window is NOT reset to a single empty bucket and the summary is NOT reset
to zero — the probe counts are merged into the remaining history. -/
theorem close_probe_does_not_reset :
    Reachable alwaysClosePolicies closeProbeRun ∧
    closeProbeRun.s = State.Closed ∧
    closeProbeRun.window ≠ [Counts.zero] ∧
    closeProbeRun.summary ≠ Counts.zero ∧
    closeProbeRun.window = [Counts.zero, ⟨2, 1, 1⟩] ∧
    closeProbeRun.summary = ⟨2, 1, 1⟩ := by
  constructor
  · have h0 : Reachable alwaysClosePolicies (initCB 2) :=
      Reachable.init 2 (by decide)
    have h1 : Reachable alwaysClosePolicies
        ((Execute alwaysClosePolicies (Outcome.fail () : Outcome Unit Unit)
          (initCB 2)).2) :=
      Reachable.step h0 (Step.exec (Outcome.fail ()) _)
    have hpend : 0 < ((Execute alwaysClosePolicies
        (Outcome.fail () : Outcome Unit Unit) (initCB 2)).2).pending := by decide
    have h2 : Reachable alwaysClosePolicies halfOpenEntryC3 :=
      Reachable.step h1 (Step.halfOpenFire _ hpend)
    exact Reachable.step h2 (Step.exec Outcome.ok _)
  · decide

/-- C3 amended: resolving a Half-Open probe with a policy answer of `Closed`
sets the state to `Closed`, leaves the summary unchanged (no reset), removes
the probe frame while merging its counts into the last history bucket (window
shrinks by one, componentwise window sum preserved); a policy answer of
`Open` (with the armed flag clear) re-enters `Open`, discards the probe frame
(its counts are subtracted from the summary), and re-arms the recovery
task. -/
theorem halfOpen_resolution (p : Policies) (c : CircuitBreaker)
    (hr : Reachable p c) (hs : c.s = State.HalfOpen) :
    (p.fromHalfOpenToState (currentFrameCopy c) = State.Closed →
      (afterExecute p c).s = State.Closed ∧
      (afterExecute p c).summary = c.summary ∧
      (afterExecute p c).window.length + 1 = c.window.length ∧
      sumWindow (afterExecute p c).window = sumWindow c.window) ∧
    (p.fromHalfOpenToState (currentFrameCopy c) = State.Open →
      c.onHalfOpenTimeout = false →
      (afterExecute p c).s = State.Open ∧
      (afterExecute p c).window = c.window.dropLast ∧
      (afterExecute p c).summary = c.summary.sub (currentFrameCopy c) ∧
      (afterExecute p c).onHalfOpenTimeout = true ∧
      (afterExecute p c).pending = c.pending + 1) := by
  obtain ⟨hne, hsum, hbk, hp, hflag, hps, hho⟩ := reachable_inv hr
  have h2 := hho hs
  have hdne := dropLast_ne_nil_of_two_le h2
  constructor
  · intro hpol
    rw [afterExecute_halfOpen_closed p c hs hpol]
    refine ⟨rfl, rfl, ?_, ?_⟩
    · show (modifyLast (fun b => b.add (c.window.getLastD Counts.zero))
        c.window.dropLast).length + 1 = c.window.length
      rw [modifyLast_length, List.length_dropLast]
      omega
    · show sumWindow (modifyLast (fun b => b.add (c.window.getLastD Counts.zero))
        c.window.dropLast) = sumWindow c.window
      rw [modifyLast_eq _ _ hdne, sumWindow_append, sumWindow_cons, sumWindow_nil,
          Counts.add_zero, ← Counts.add_assoc, ← sumWindow_dropLast _ hdne,
          ← sumWindow_dropLast _ hne]
  · intro hpol hfl
    rw [afterExecute_halfOpen_open p c hs hfl hpol]
    exact ⟨rfl, rfl, rfl, rfl, rfl⟩

/-- Witness for C3 amended on the concrete Half-Open state whose policy
resolves to `Closed`. -/
theorem halfOpen_resolution_witness :
    Reachable alwaysClosePolicies halfOpenEntryC3 ∧
    halfOpenEntryC3.s = State.HalfOpen ∧
    ((alwaysClosePolicies.fromHalfOpenToState (currentFrameCopy halfOpenEntryC3) =
        State.Closed →
      (afterExecute alwaysClosePolicies halfOpenEntryC3).s = State.Closed ∧
      (afterExecute alwaysClosePolicies halfOpenEntryC3).summary =
        halfOpenEntryC3.summary ∧
      (afterExecute alwaysClosePolicies halfOpenEntryC3).window.length + 1 =
        halfOpenEntryC3.window.length ∧
      sumWindow (afterExecute alwaysClosePolicies halfOpenEntryC3).window =
        sumWindow halfOpenEntryC3.window) ∧
    (alwaysClosePolicies.fromHalfOpenToState (currentFrameCopy halfOpenEntryC3) =
        State.Open →
      halfOpenEntryC3.onHalfOpenTimeout = false →
      (afterExecute alwaysClosePolicies halfOpenEntryC3).s = State.Open ∧
      (afterExecute alwaysClosePolicies halfOpenEntryC3).window =
        halfOpenEntryC3.window.dropLast ∧
      (afterExecute alwaysClosePolicies halfOpenEntryC3).summary =
        halfOpenEntryC3.summary.sub (currentFrameCopy halfOpenEntryC3) ∧
      (afterExecute alwaysClosePolicies halfOpenEntryC3).onHalfOpenTimeout = true ∧
      (afterExecute alwaysClosePolicies halfOpenEntryC3).pending =
        halfOpenEntryC3.pending + 1)) :=
  have h0 : Reachable alwaysClosePolicies (initCB 2) := Reachable.init 2 (by decide)
  have h1 : Reachable alwaysClosePolicies
      ((Execute alwaysClosePolicies (Outcome.fail () : Outcome Unit Unit)
        (initCB 2)).2) :=
    Reachable.step h0 (Step.exec (Outcome.fail ()) _)
  have hr : Reachable alwaysClosePolicies halfOpenEntryC3 :=
    Reachable.step h1 (Step.halfOpenFire _ (by decide))
  ⟨hr, by decide, halfOpen_resolution alwaysClosePolicies halfOpenEntryC3 hr (by decide)⟩
